import Mathlib

set_option maxHeartbeats 1000000

/-!
Verification development for the sflk front end: a shallow embedding of
`parser.rs` (source units, locations, the reading head / tokenizer) and
`ast.rs` (located nodes, the AST, invalidity propagation, and the lowering
pass to the program IR), together with theorems checking the specified
properties against the embedded code.

Strings are represented as `List Char` (Rust `String` is UTF-8; byte
offsets are recovered with `utf8_len` below).  The reading head's
`raw_index: usize` byte cursor always sits on a character boundary, so it
is represented by the number `pos` of characters consumed; the byte offset
is recovered as `utf8_len (content.take pos)` (`ReadingHead.raw_index`).
Loops are embedded as fuel-indexed recursions returning `none` when the
fuel runs out; the termination theorem shows the fuel actually supplied is
always sufficient.  Rust panics (`unreachable`, `todo`, `expect`) are
embedded as `Option` failure (`none`).
-/

/-- Rust `char::is_ascii_whitespace`: space, horizontal tab, newline,
form feed, carriage return. -/
def is_ascii_whitespace (c : Char) : Bool :=
  c = ' ' || c = '\t' || c = '\n' || c = '\x0c' || c = '\r'

/-- Rust `char::is_ascii_alphabetic`. -/
def is_ascii_alphabetic (c : Char) : Bool :=
  ('A' ≤ c && c ≤ 'Z') || ('a' ≤ c && c ≤ 'z')

/-- Rust `char::is_ascii_digit`. -/
def is_ascii_digit (c : Char) : Bool :=
  '0' ≤ c && c ≤ '9'

/-- Byte length of a UTF-8 string given as its list of characters. -/
def utf8_len : List Char → Nat
  | [] => 0
  | c :: cs => c.utf8Size + utf8_len cs

/-- `SourceCodeUnit` from parser.rs: a named source text with the byte
offsets at which each line begins. -/
structure SourceCodeUnit where
  name : List Char
  content : List Char
  line_offsets : List Nat
deriving DecidableEq

/-- The line-offset scan in `SourceCodeUnit::from_str`: for every `'\n'`
(at byte offset `i`) contribute `i + 1`.  The parameter is the byte offset
of the current character. -/
def line_offsets_aux : List Char → Nat → List Nat
  | [], _ => []
  | c :: cs, i =>
    if c = '\n' then (i + 1) :: line_offsets_aux cs (i + c.utf8Size)
    else line_offsets_aux cs (i + c.utf8Size)

/-- `SourceCodeUnit::from_str`: compute line offsets (starting with 0),
then append a final `'\n'` (and its line offset) when the last recorded
offset differs from the content's byte length.  The Rust
`line_offsets.last().unwrap()` is total because the list starts with `0`;
`getLastD` matches it here. -/
def SourceCodeUnit.from_str (s : List Char) (name : List Char) : SourceCodeUnit :=
  let line_offsets := 0 :: line_offsets_aux s 0
  let content := s
  if line_offsets.getLastD 0 ≠ utf8_len content then
    { name := name, content := content ++ ['\n'],
      line_offsets := line_offsets ++ [utf8_len content + 1] }
  else
    { name := name, content := content, line_offsets := line_offsets }

/-- `Loc` from parser.rs. -/
structure Loc where
  scu : SourceCodeUnit
  line_start : Nat
  raw_index_start : Nat
  raw_length : Nat
deriving DecidableEq

/-- `ParsingError` from parser.rs. -/
inductive ParsingError where
  | EofInComment (loc : Loc)
  | UnexpectedCharacter (ch : Char) (loc : Loc)
deriving DecidableEq

/-- `ReadingHead` from parser.rs.  `pos` counts the characters consumed;
the `raw_index` byte offset of the Rust struct is `ReadingHead.raw_index`
below (they advance in lock step because the Rust cursor only ever stops
on character boundaries). -/
structure ReadingHead where
  scu : SourceCodeUnit
  pos : Nat
  line : Nat
deriving DecidableEq

/-- `ReadingHead::from_scu`. -/
def ReadingHead.from_scu (scu : SourceCodeUnit) : ReadingHead :=
  { scu := scu, pos := 0, line := 1 }

/-- The characters not yet consumed (`self.scu.content[self.raw_index..]`). -/
def ReadingHead.rem (rh : ReadingHead) : List Char :=
  rh.scu.content.drop rh.pos

/-- `ReadingHead::peek_cur_char`: `content[raw_index..].chars().next()`. -/
def ReadingHead.peek_cur_char (rh : ReadingHead) : Option Char :=
  rh.rem.head?

/-- The byte offset of the cursor (the Rust field `raw_index`). -/
def ReadingHead.raw_index (rh : ReadingHead) : Nat :=
  utf8_len (rh.scu.content.take rh.pos)

/-- `ReadingHead::goto_next_char`: advance past the current character
(no-op at end of input), bumping the line counter on `'\n'`.  The Rust
`raw_index += ch.len_utf8()` is reflected through `raw_index` above. -/
def ReadingHead.goto_next_char (rh : ReadingHead) : ReadingHead :=
  match rh.peek_cur_char with
  | some ch =>
    { rh with pos := rh.pos + 1, line := if ch = '\n' then rh.line + 1 else rh.line }
  | none => rh

/-- `ReadingHead::cur_char_loc`: a location for the character about to be
read (length its UTF-8 size, or 0 at end of input). -/
def ReadingHead.cur_char_loc (rh : ReadingHead) : Loc :=
  { scu := rh.scu
    line_start := rh.line
    raw_index_start := rh.raw_index
    raw_length :=
      match rh.peek_cur_char with
      | some ch => ch.utf8Size
      | none => 0 }

/-- The loop body of `ReadingHead::skip_ws`, fuel-indexed.  `comment`
holds the location of the opening `'#'` while a comment is open.  The
match arms are those of the Rust `match (peek, comment)` in order:
open a comment at `'#'`, stop at a non-whitespace character outside a
comment, close a comment at a second `'#'`, fail with `EofInComment` at
end of input inside a comment, stop at end of input outside a comment,
and otherwise advance. -/
def skip_ws_aux : Nat → Option Loc → ReadingHead → Option (Except ParsingError ReadingHead)
  | 0, _, _ => none
  | fuel + 1, comment, rh =>
    match rh.peek_cur_char, comment with
    | some ch, none =>
      if ch = '#' then skip_ws_aux fuel (some rh.cur_char_loc) rh.goto_next_char
      else if !is_ascii_whitespace ch then some (Except.ok rh)
      else skip_ws_aux fuel none rh.goto_next_char
    | some ch, some l =>
      if ch = '#' then skip_ws_aux fuel none rh.goto_next_char
      else skip_ws_aux fuel (some l) rh.goto_next_char
    | none, some l => some (Except.error (ParsingError.EofInComment l))
    | none, none => some (Except.ok rh)

/-- `ReadingHead::skip_ws`.  The fuel `content.length + 1` strictly
exceeds the number of unconsumed characters, which the termination
theorem shows is enough. -/
def ReadingHead.skip_ws (rh : ReadingHead) : Option (Except ParsingError ReadingHead) :=
  skip_ws_aux (rh.scu.content.length + 1) none rh

instance {ε α : Type} [DecidableEq ε] [DecidableEq α] : DecidableEq (Except ε α) := fun a b =>
  match a, b with
  | Except.error e1, Except.error e2 =>
    if h : e1 = e2 then Decidable.isTrue (congrArg Except.error h)
    else Decidable.isFalse fun hc => h (by injection hc)
  | Except.error e1, Except.ok a2 => Decidable.isFalse fun hc => Except.noConfusion hc
  | Except.ok a1, Except.error e2 => Decidable.isFalse fun hc => Except.noConfusion hc
  | Except.ok a1, Except.ok a2 =>
    if h : a1 = a2 then Decidable.isTrue (congrArg Except.ok h)
    else Decidable.isFalse fun hc => h (by injection hc)

/-- `Tok` from parser.rs. -/
inductive Tok where
  | Word (s : List Char)
  | Integer (s : List Char)
  | BinOp (s : List Char)
  | Left (s : List Char)
  | Right (s : List Char)
  | Void
deriving DecidableEq

/-- `Tok::is_void`. -/
def Tok.is_void : Tok → Bool
  | Tok.Void => true
  | _ => false

/-- The loop of `ReadingHead::read_cur_word`: greedily consume a run of
ASCII-alphabetic characters. -/
def read_word_aux : Nat → ReadingHead → Option (List Char × ReadingHead)
  | 0, _ => none
  | fuel + 1, rh =>
    match rh.peek_cur_char with
    | some ch =>
      if is_ascii_alphabetic ch then
        (read_word_aux fuel rh.goto_next_char).map fun p => (ch :: p.1, p.2)
      else some ([], rh)
    | none => some ([], rh)

/-- `ReadingHead::read_cur_word`: the location starts at the current
character and its `raw_length` is overwritten with the word's byte
length. -/
def ReadingHead.read_cur_word (rh : ReadingHead) : Option (List Char × Loc × ReadingHead) :=
  let loc := rh.cur_char_loc
  (read_word_aux (rh.scu.content.length + 1) rh).map fun p =>
    (p.1, { loc with raw_length := utf8_len p.1 }, p.2)

/-- The loop of `ReadingHead::read_cur_integer`: greedily consume a run of
ASCII digits. -/
def read_integer_aux : Nat → ReadingHead → Option (List Char × ReadingHead)
  | 0, _ => none
  | fuel + 1, rh =>
    match rh.peek_cur_char with
    | some ch =>
      if is_ascii_digit ch then
        (read_integer_aux fuel rh.goto_next_char).map fun p => (ch :: p.1, p.2)
      else some ([], rh)
    | none => some ([], rh)

/-- `ReadingHead::read_cur_integer`. -/
def ReadingHead.read_cur_integer (rh : ReadingHead) : Option (List Char × Loc × ReadingHead) :=
  let loc := rh.cur_char_loc
  (read_integer_aux (rh.scu.content.length + 1) rh).map fun p =>
    (p.1, { loc with raw_length := utf8_len p.1 }, p.2)

/-- `ReadingHead::read_cur_tok`: skip whitespace and comments, then
classify the current character.  Note that in the single-character token
arms the Rust code advances (`goto_next_char`) before taking
`cur_char_loc`, exactly as embedded here. -/
def ReadingHead.read_cur_tok (rh : ReadingHead) : Option (Except ParsingError (Tok × Loc)) :=
  match rh.skip_ws with
  | none => none
  | some (Except.error e) => some (Except.error e)
  | some (Except.ok rh1) =>
    match rh1.peek_cur_char with
    | some ch =>
      if is_ascii_alphabetic ch then
        (rh1.read_cur_word).map fun p => Except.ok (Tok.Word p.1, p.2.1)
      else if is_ascii_digit ch then
        (rh1.read_cur_integer).map fun p => Except.ok (Tok.Integer p.1, p.2.1)
      else if ch = '+' || ch = '-' || ch = '*' || ch = '/' then
        some (Except.ok (Tok.BinOp [ch], rh1.goto_next_char.cur_char_loc))
      else if ch = '(' || ch = '[' || ch = '\x7b' then
        some (Except.ok (Tok.Left [ch], rh1.goto_next_char.cur_char_loc))
      else if ch = ')' || ch = ']' || ch = '\x7d' then
        some (Except.ok (Tok.Right [ch], rh1.goto_next_char.cur_char_loc))
      else
        some (Except.error (ParsingError.UnexpectedCharacter ch rh1.cur_char_loc))
    | none => some (Except.ok (Tok.Void, rh1.cur_char_loc))

/-! ## ast.rs: located nodes, the AST, invalidity, and the lowering pass -/

/-- `Comments` from ast.rs. -/
structure Comments where
  left_comments : List (List Char)
  right_comments : List (List Char)
  internal_comments : List (List Char)
deriving DecidableEq

/-- `Comments::new`. -/
def Comments.new : Comments :=
  { left_comments := [], right_comments := [], internal_comments := [] }

/-- Modelled from the spec: `ParsingWarning` is defined in parser2.rs,
which is not under src/; per §3 warnings are opaque values the parser
attaches to nodes, so they are modelled as an abstract tag. -/
inductive ParsingWarning where
  | mk (tag : Nat)
deriving DecidableEq

/-- `Node<T>` from ast.rs: a syntactic payload with its location,
comments and warnings.  ast.rs uses `crate::scu::Loc` (scu.rs is not
under src/); per §3 it is the same span shape as parser.rs's `Loc`,
which is reused here. -/
structure Node (α : Type) where
  content : α
  loc : Loc
  comments : Comments
  warnings : List ParsingWarning

/-- `Node::from`: empty comment buckets, no warnings. -/
def Node.from {α : Type} (content : α) (loc : Loc) : Node α :=
  { content := content, loc := loc, comments := Comments.new, warnings := [] }

/-- `Node::unwrap`. -/
def Node.unwrap {α : Type} (n : Node α) : α := n.content

/-- `Node::map`: transform the content, keep everything else. -/
def Node.map {α β : Type} (n : Node α) (func : α → β) : Node β :=
  { content := func n.content, loc := n.loc, comments := n.comments,
    warnings := n.warnings }

/-- `TargetExpr` from ast.rs. -/
inductive TargetExpr where
  | VariableName (s : List Char)
  | Invalid

mutual

/-- `Stmt` from ast.rs. -/
inductive Stmt where
  | Nop
  | Print (expr : Node Expr)
  | Newline
  | Assign (target : Node TargetExpr) (expr : Node Expr)
  | Evaluate (expr : Node Expr)
  | Do (expr : Node Expr)
  | DoHere (expr : Node Expr)
  | DoFileHere (expr : Node Expr)
  | If (cond_expr : Node Expr) (th_stmt : Option (Node Stmt)) (el_stmt : Option (Node Stmt))
  | Invalid

/-- `Expr` from ast.rs. -/
inductive Expr where
  | VariableName (s : List Char)
  | IntegerLiteral (s : List Char)
  | StringLiteral (s : List Char)
  | BlockLiteral (stmts : List (Node Stmt))
  | Chain (init : Node Expr) (chops : List (Node Chop))
  | Invalid

/-- `Chop` from ast.rs. -/
inductive Chop where
  | Plus (expr : Node Expr)
  | Minus (expr : Node Expr)
  | Star (expr : Node Expr)
  | Slash (expr : Node Expr)
  | ToRight (expr : Node Expr)
  | Invalid

end

/-- `Program` from ast.rs. -/
structure Program where
  stmts : List (Node Stmt)

mutual

/-- `program::Block` (program.rs is not under src/; its shape is fixed by
§3 "Program IR" and by its construction sites in ast.rs). -/
inductive program.Block where
  | mk (stmts : List program.Stmt)

/-- `program::Stmt` per §3 "Program IR" and its construction in ast.rs. -/
inductive program.Stmt where
  | Nop
  | Print (expr : program.Expr)
  | Newline
  | Assign (varname : List Char) (expr : program.Expr)
  | Evaluate (expr : program.Expr)
  | Do (expr : program.Expr)
  | DoHere (expr : program.Expr)
  | DoFileHere (expr : program.Expr)
  | If (cond_expr : program.Expr) (th_stmt : Option program.Stmt) (el_stmt : Option program.Stmt)
  | Invalid

/-- `program::Expr` per §3 "Program IR" and its construction in ast.rs. -/
inductive program.Expr where
  | Var (varname : List Char)
  | Const (val : Obj)
  | Chain (init_expr : program.Expr) (chops : List program.Chop)

/-- `program::Chop` per §3 "Program IR" and its construction in ast.rs. -/
inductive program.Chop where
  | Plus (e : program.Expr)
  | Minus (e : program.Expr)
  | Star (e : program.Expr)
  | Slash (e : program.Expr)
  | ToRight (e : program.Expr)

/-- `Obj` (object.rs is not under src/): per §3 a constant value is an
Integer, a String, or a nested IR Block. -/
inductive Obj where
  | Integer (n : Int)
  | String (s : List Char)
  | Block (b : program.Block)

end

/-- The numeric value of a decimal digit run. -/
def digits_to_nat (l : List Char) : Nat :=
  l.foldl (fun a c => a * 10 + (c.toNat - 48)) 0

/-- Modelled from the spec: `Obj::Integer`'s payload type lives in
object.rs, which is not under src/; §9 says integer literals target a
fixed-width integer ("TODO: bigints") without naming the width, so a
32-bit signed target is modelled: `str::parse` succeeds on a nonempty
run of ASCII digits whose value fits, and fails (`.expect` panic,
embedded as `none`) otherwise. -/
def parse_integer (l : List Char) : Option Int :=
  if l ≠ [] ∧ l.all is_ascii_digit ∧ digits_to_nat l ≤ 2147483647 then
    some (digits_to_nat l)
  else none

/-- `TargetExpr::is_invalid`. -/
def TargetExpr.is_invalid : TargetExpr → Bool
  | TargetExpr.VariableName _ => false
  | TargetExpr.Invalid => true

mutual

/-- `Stmt::is_invalid` from ast.rs (nodes are destructured down to their
`content` field in the patterns). -/
def Stmt.is_invalid : Stmt → Bool
  | Stmt.Nop => false
  | Stmt.Print ⟨e, _, _, _⟩ => e.is_invalid
  | Stmt.Newline => false
  | Stmt.Assign ⟨t, _, _, _⟩ ⟨e, _, _, _⟩ => t.is_invalid || e.is_invalid
  | Stmt.Evaluate ⟨e, _, _, _⟩ => e.is_invalid
  | Stmt.Do ⟨e, _, _, _⟩ => e.is_invalid
  | Stmt.DoHere ⟨e, _, _, _⟩ => e.is_invalid
  | Stmt.DoFileHere ⟨e, _, _, _⟩ => e.is_invalid
  | Stmt.If ⟨ce, _, _, _⟩ th el =>
    ce.is_invalid || opt_node_stmt_is_invalid th || opt_node_stmt_is_invalid el
  | Stmt.Invalid => true

/-- The `th_stmt.as_ref().map(..).unwrap_or(false)` pattern of
`Stmt::is_invalid`. -/
def opt_node_stmt_is_invalid : Option (Node Stmt) → Bool
  | none => false
  | some ⟨s, _, _, _⟩ => s.is_invalid

/-- `Expr::is_invalid` from ast.rs.  Note the source returns `false` for
`BlockLiteral` without looking at its statements. -/
def Expr.is_invalid : Expr → Bool
  | Expr.VariableName _ => false
  | Expr.IntegerLiteral _ => false
  | Expr.StringLiteral _ => false
  | Expr.BlockLiteral _ => false
  | Expr.Chain ⟨i, _, _, _⟩ chops => i.is_invalid || chops_any_is_invalid chops
  | Expr.Invalid => true

/-- The `chops.iter().any(..)` of `Expr::is_invalid`. -/
def chops_any_is_invalid : List (Node Chop) → Bool
  | [] => false
  | ⟨c, _, _, _⟩ :: rest => c.is_invalid || chops_any_is_invalid rest

/-- `Chop::is_invalid` from ast.rs. -/
def Chop.is_invalid : Chop → Bool
  | Chop.Plus ⟨e, _, _, _⟩ => e.is_invalid
  | Chop.Minus ⟨e, _, _, _⟩ => e.is_invalid
  | Chop.Star ⟨e, _, _, _⟩ => e.is_invalid
  | Chop.Slash ⟨e, _, _, _⟩ => e.is_invalid
  | Chop.ToRight ⟨e, _, _, _⟩ => e.is_invalid
  | Chop.Invalid => true

end

mutual

/-- `Stmt::to_machine_stmt` from ast.rs.  The `todo!()` on an `Invalid`
assignment target is embedded as `none`; panics propagate as `none`. -/
def Stmt.to_machine_stmt : Stmt → Option program.Stmt
  | Stmt.Nop => some program.Stmt.Nop
  | Stmt.Print ⟨e, _, _, _⟩ => e.to_machine_expr.map fun pe => program.Stmt.Print pe
  | Stmt.Newline => some program.Stmt.Newline
  | Stmt.Assign ⟨t, _, _, _⟩ ⟨e, _, _, _⟩ =>
    match t with
    | TargetExpr.VariableName varname =>
      e.to_machine_expr.map fun pe => program.Stmt.Assign varname pe
    | TargetExpr.Invalid => none
  | Stmt.Evaluate ⟨e, _, _, _⟩ => e.to_machine_expr.map fun pe => program.Stmt.Evaluate pe
  | Stmt.Do ⟨e, _, _, _⟩ => e.to_machine_expr.map fun pe => program.Stmt.Do pe
  | Stmt.DoHere ⟨e, _, _, _⟩ => e.to_machine_expr.map fun pe => program.Stmt.DoHere pe
  | Stmt.DoFileHere ⟨e, _, _, _⟩ => e.to_machine_expr.map fun pe => program.Stmt.DoFileHere pe
  | Stmt.If ⟨ce, _, _, _⟩ th el =>
    match ce.to_machine_expr, opt_node_stmt_to_machine th, opt_node_stmt_to_machine el with
    | some pce, some pth, some pel => some (program.Stmt.If pce pth pel)
    | _, _, _ => none
  | Stmt.Invalid => some program.Stmt.Invalid

/-- The `opt.as_ref().map(|s| Box::new(s.content.to_machine_stmt()))`
pattern of `Stmt::to_machine_stmt` (outer `Option` = absence of panic,
inner `Option` = absence of the branch). -/
def opt_node_stmt_to_machine : Option (Node Stmt) → Option (Option program.Stmt)
  | none => some none
  | some ⟨s, _, _, _⟩ => s.to_machine_stmt.map fun ps => some ps

/-- The `stmts.iter().map(..).collect()` shared by
`Program::to_machine_block` and block-literal lowering. -/
def stmts_to_machine : List (Node Stmt) → Option (List program.Stmt)
  | [] => some []
  | ⟨s, _, _, _⟩ :: rest =>
    match s.to_machine_stmt, stmts_to_machine rest with
    | some ps, some prest => some (ps :: prest)
    | _, _ => none

/-- `Expr::to_machine_expr` from ast.rs.  The `unreachable!()` on
`Expr::Invalid` and the `.expect("TODO: bigints")` on integer parsing
are embedded as `none`. -/
def Expr.to_machine_expr : Expr → Option program.Expr
  | Expr.VariableName varname => some (program.Expr.Var varname)
  | Expr.IntegerLiteral integer_string =>
    (parse_integer integer_string).map fun n => program.Expr.Const (Obj.Integer n)
  | Expr.StringLiteral string_string =>
    some (program.Expr.Const (Obj.String string_string))
  | Expr.BlockLiteral stmts =>
    (stmts_to_machine stmts).map fun l => program.Expr.Const (Obj.Block (program.Block.mk l))
  | Expr.Chain ⟨i, _, _, _⟩ chops =>
    match i.to_machine_expr, chops_to_machine chops with
    | some pinit, some pchops => some (program.Expr.Chain pinit pchops)
    | _, _ => none
  | Expr.Invalid => none

/-- The `chops.iter().map(..).collect()` of `Expr::to_machine_expr`. -/
def chops_to_machine : List (Node Chop) → Option (List program.Chop)
  | [] => some []
  | ⟨c, _, _, _⟩ :: rest =>
    match c.to_machine_chop, chops_to_machine rest with
    | some pc, some prest => some (pc :: prest)
    | _, _ => none

/-- `Chop::to_machine_chop` from ast.rs (`unreachable!()` on `Invalid`
embedded as `none`). -/
def Chop.to_machine_chop : Chop → Option program.Chop
  | Chop.Plus ⟨e, _, _, _⟩ => e.to_machine_expr.map program.Chop.Plus
  | Chop.Minus ⟨e, _, _, _⟩ => e.to_machine_expr.map program.Chop.Minus
  | Chop.Star ⟨e, _, _, _⟩ => e.to_machine_expr.map program.Chop.Star
  | Chop.Slash ⟨e, _, _, _⟩ => e.to_machine_expr.map program.Chop.Slash
  | Chop.ToRight ⟨e, _, _, _⟩ => e.to_machine_expr.map program.Chop.ToRight
  | Chop.Invalid => none

end

/-- `Program::to_machine_block`. -/
def Program.to_machine_block (p : Program) : Option program.Block :=
  (stmts_to_machine p.stmts).map fun l => program.Block.mk l

/-! ## Specification-side definitions and helper notions -/

/-- Iterated `goto_next_char`. -/
def advance_n (rh : ReadingHead) : Nat → ReadingHead
  | 0 => rh
  | n + 1 => (advance_n rh n).goto_next_char

/-- Modelled from the spec (§4.2 wording, for the refinement claim about
`EofInComment`): scan the characters, tracking the index of the `'#'`
that opened a still-open comment (`open0`).  Outside a comment, a `'#'`
opens one (recording its index), whitespace is consumed, and any other
character stops the scan; inside a comment, a `'#'` closes it and any
other character is consumed.  The result is the opening index of the
comment left open at end of input, if any. -/
def scan_aux : List Char → Nat → Option Nat → Option Nat
  | [], _, open0 => open0
  | c :: cs, i, none =>
    if c = '#' then scan_aux cs (i + 1) (some i)
    else if is_ascii_whitespace c then scan_aux cs (i + 1) none
    else none
  | c :: cs, i, some j =>
    if c = '#' then scan_aux cs (i + 1) none
    else scan_aux cs (i + 1) (some j)

/-- Modelled from the spec (§4.2): the index of the `'#'` opening the
comment that is still open when end of input is reached, starting the
scan outside any comment. -/
def open_comment_at_eof (l : List Char) : Option Nat :=
  scan_aux l 0 none


/-- A placeholder location for building concrete AST nodes in the
evaluation theorems. -/
def dummy_loc : Loc :=
  { scu := { name := [], content := [], line_offsets := [] },
    line_start := 1, raw_index_start := 0, raw_length := 0 }

/-- A block-literal expression whose one statement is `Stmt::Invalid`. -/
def block_with_invalid_stmt : Expr :=
  Expr.BlockLiteral [Node.from Stmt.Invalid dummy_loc]

/-- A block-literal expression whose one statement prints `Expr::Invalid`. -/
def block_with_invalid_print : Expr :=
  Expr.BlockLiteral [Node.from (Stmt.Print (Node.from Expr.Invalid dummy_loc)) dummy_loc]

/-- The source unit for the text `"# comment\nx"`. -/
def c3_scu : SourceCodeUnit := SourceCodeUnit.from_str "# comment\nx".data "test".data

/-- The source unit for the text `"# comment #\nx"` (comment closed by a
second `'#'`). -/
def c3_amended_scu : SourceCodeUnit := SourceCodeUnit.from_str "# comment #\nx".data "test".data

/-- The source unit for the text `"+"`. -/
def c4_scu : SourceCodeUnit := SourceCodeUnit.from_str "+".data "test".data

/-- The source unit for the text `"#a"` (an unterminated comment). -/
def c6_scu : SourceCodeUnit := SourceCodeUnit.from_str "#a".data "test".data

/-! ## Helper lemmas -/

theorem utf8_len_append (a b : List Char) : utf8_len (a ++ b) = utf8_len a + utf8_len b := by
  induction a with
  | nil => simp [utf8_len]
  | cons c cs ih => simp [utf8_len, ih]; omega

theorem rem_length_le (rh : ReadingHead) : rh.rem.length ≤ rh.scu.content.length := by
  simp [ReadingHead.rem]

theorem goto_scu (rh : ReadingHead) : rh.goto_next_char.scu = rh.scu := by
  unfold ReadingHead.goto_next_char
  cases rh.peek_cur_char <;> rfl

theorem goto_rem (rh : ReadingHead) : rh.goto_next_char.rem = rh.rem.tail := by
  unfold ReadingHead.goto_next_char ReadingHead.peek_cur_char
  cases h : rh.rem.head? with
  | none =>
    have : rh.rem = [] := by
      cases hr : rh.rem
      · rfl
      · rw [hr] at h; simp at h
    simp [this]
  | some c =>
    simp [ReadingHead.rem] at *

theorem goto_line (rh : ReadingHead) :
    rh.goto_next_char.line =
      rh.line + (if rh.rem.head? = some '\n' then 1 else 0) := by
  unfold ReadingHead.goto_next_char ReadingHead.peek_cur_char
  cases h : rh.rem.head? with
  | none => simp
  | some c =>
    by_cases hc : c = '\n' <;> simp [hc]

theorem goto_raw_index (rh : ReadingHead) :
    rh.goto_next_char.raw_index =
      rh.raw_index + (match rh.rem.head? with | some c => c.utf8Size | none => 0) := by
  unfold ReadingHead.goto_next_char ReadingHead.peek_cur_char
  cases h : rh.rem.head? with
  | none => simp
  | some c =>
    have hg : rh.scu.content[rh.pos]? = some c := by
      rw [← List.head?_drop]; exact h
    simp only [ReadingHead.raw_index]
    have : rh.scu.content.take (rh.pos + 1) = rh.scu.content.take rh.pos ++ [c] := by
      rw [List.take_succ, hg]; rfl
    simp [this, utf8_len_append, utf8_len]

theorem goto_rem_cons {rh : ReadingHead} {c : Char} (h : rh.peek_cur_char = some c) :
    rh.rem = c :: rh.goto_next_char.rem := by
  rw [goto_rem]
  unfold ReadingHead.peek_cur_char at h
  cases hr : rh.rem with
  | nil => rw [hr] at h; simp at h
  | cons a t => rw [hr] at h; simp at h; simp [h]

theorem advance_n_goto_comm (rh : ReadingHead) (n : Nat) :
    advance_n rh.goto_next_char n = (advance_n rh n).goto_next_char := by
  induction n with
  | zero => rfl
  | succ m ih => simp only [advance_n, ih]

theorem advance_n_scu (rh : ReadingHead) (n : Nat) : (advance_n rh n).scu = rh.scu := by
  induction n with
  | zero => rfl
  | succ m ih => simp only [advance_n, goto_scu, ih]

theorem advance_n_rem (rh : ReadingHead) (n : Nat) :
    (advance_n rh n).rem = rh.rem.drop n := by
  induction n with
  | zero => rfl
  | succ m ih => simp only [advance_n, goto_rem, ih, List.tail_drop]

theorem advance_n_line (rh : ReadingHead) (n : Nat) :
    (advance_n rh n).line = rh.line + (rh.rem.take n).count '\n' := by
  induction n with
  | zero => simp [advance_n]
  | succ m ih =>
    simp only [advance_n, goto_line, ih, advance_n_rem]
    rw [List.take_succ, List.count_append, List.head?_drop]
    cases hg : rh.rem[m]? with
    | none => simp
    | some c =>
      by_cases hc : c = '\n' <;> (simp [hc, List.count_cons]; try omega)

theorem advance_n_raw_index (rh : ReadingHead) (n : Nat) :
    (advance_n rh n).raw_index = rh.raw_index + utf8_len (rh.rem.take n) := by
  induction n with
  | zero => simp [advance_n, utf8_len]
  | succ m ih =>
    simp only [advance_n, goto_raw_index, ih, advance_n_rem]
    rw [List.take_succ, utf8_len_append, List.head?_drop]
    cases hg : rh.rem[m]? with
    | none => simp [utf8_len]
    | some c => simp [utf8_len]; omega

theorem rem_length_goto {rh : ReadingHead} {ch : Char} (hp : rh.peek_cur_char = some ch) :
    rh.rem.length = rh.goto_next_char.rem.length + 1 := by
  rw [goto_rem_cons hp]; simp [goto_rem]

theorem skip_ws_aux_isSome (fuel : Nat) :
    ∀ (comment : Option Loc) (rh : ReadingHead), rh.rem.length < fuel →
      (skip_ws_aux fuel comment rh).isSome := by
  induction fuel with
  | zero => intro c rh h; omega
  | succ f ih =>
    intro comment rh h
    unfold skip_ws_aux
    cases hp : rh.peek_cur_char with
    | none => cases comment <;> simp
    | some ch =>
      have hlen : rh.goto_next_char.rem.length < f := by
        have := rem_length_goto hp
        omega
      cases comment with
      | none =>
        by_cases h1 : ch = '#'
        · simp only [h1, if_pos rfl]; exact ih _ _ hlen
        · by_cases h2 : is_ascii_whitespace ch
          · simp only [if_neg h1, h2, Bool.not_true, Bool.false_eq_true, if_false]
            exact ih _ _ hlen
          · simp only [if_neg h1]
            have : (!is_ascii_whitespace ch) = true := by
              simp only [Bool.not_eq_true']; exact Bool.eq_false_iff.mpr h2
            simp [this]
      | some l =>
        by_cases h1 : ch = '#' <;> simp only [h1, if_pos, if_neg, ite_true, ite_false] <;>
          exact ih _ _ hlen

theorem read_word_aux_isSome (fuel : Nat) :
    ∀ (rh : ReadingHead), rh.rem.length < fuel → (read_word_aux fuel rh).isSome := by
  induction fuel with
  | zero => intro rh h; omega
  | succ f ih =>
    intro rh h
    unfold read_word_aux
    cases hp : rh.peek_cur_char with
    | none => simp
    | some ch =>
      have hlen : rh.goto_next_char.rem.length < f := by
        have := rem_length_goto hp
        omega
      by_cases h1 : is_ascii_alphabetic ch
      · simp only [h1, if_true]
        simpa using ih _ hlen
      · simp [h1]

theorem read_integer_aux_isSome (fuel : Nat) :
    ∀ (rh : ReadingHead), rh.rem.length < fuel → (read_integer_aux fuel rh).isSome := by
  induction fuel with
  | zero => intro rh h; omega
  | succ f ih =>
    intro rh h
    unfold read_integer_aux
    cases hp : rh.peek_cur_char with
    | none => simp
    | some ch =>
      have hlen : rh.goto_next_char.rem.length < f := by
        have := rem_length_goto hp
        omega
      by_cases h1 : is_ascii_digit ch
      · simp only [h1, if_true]
        simpa using ih _ hlen
      · simp [h1]

theorem skip_ws_isSome (rh : ReadingHead) : rh.skip_ws.isSome := by
  unfold ReadingHead.skip_ws
  exact skip_ws_aux_isSome _ _ _ (Nat.lt_succ_of_le (rem_length_le rh))

theorem peek_none_rem_nil {rh : ReadingHead} (hp : rh.peek_cur_char = none) :
    rh.rem = [] := by
  unfold ReadingHead.peek_cur_char at hp
  cases hr : rh.rem
  · rfl
  · rw [hr] at hp; simp at hp

theorem skip_ws_aux_error_iff (fuel : Nat) :
    ∀ (rh0 : ReadingHead) (n : Nat) (op : Option Nat) (loc : Loc),
      (advance_n rh0 n).rem.length < fuel →
      (skip_ws_aux fuel (op.map fun j => (advance_n rh0 j).cur_char_loc) (advance_n rh0 n)
          = some (Except.error (ParsingError.EofInComment loc)) ↔
        ∃ j, scan_aux (advance_n rh0 n).rem n op = some j ∧
          loc = (advance_n rh0 j).cur_char_loc) := by
  induction fuel with
  | zero => intro rh0 n op loc h; omega
  | succ f ih =>
    intro rh0 n op loc h
    have hadv : advance_n rh0 (n + 1) = (advance_n rh0 n).goto_next_char := rfl
    cases hp : (advance_n rh0 n).peek_cur_char with
    | none =>
      have hrem : (advance_n rh0 n).rem = [] := peek_none_rem_nil hp
      cases op with
      | none =>
        unfold skip_ws_aux
        rw [hrem]
        simp [hp, scan_aux]
      | some j0 =>
        unfold skip_ws_aux
        rw [hrem]
        simp only [Option.map_some', hp, scan_aux]
        constructor
        · intro hc
          have h1 := Option.some.inj hc
          have h2 : ParsingError.EofInComment ((advance_n rh0 j0).cur_char_loc)
              = ParsingError.EofInComment loc := by
            cases h1; rfl
          exact ⟨j0, rfl, by cases h2; rfl⟩
        · rintro ⟨j, hj, hl⟩
          cases Option.some.inj hj
          rw [hl]
    | some c =>
      have hlen : (advance_n rh0 (n + 1)).rem.length < f := by
        rw [hadv]
        have := rem_length_goto hp
        omega
      have hcons : (advance_n rh0 n).rem = c :: (advance_n rh0 (n + 1)).rem := by
        rw [hadv]; exact goto_rem_cons hp
      cases op with
      | none =>
        by_cases hc : c = '#'
        · unfold skip_ws_aux
          simp only [Option.map_none', hp, hc, if_true]
          rw [← hadv]
          have hmap : (some ((advance_n rh0 n).cur_char_loc))
              = (some n).map (fun j => (advance_n rh0 j).cur_char_loc) := rfl
          rw [hmap, ih rh0 (n + 1) (some n) loc hlen, hcons]
          simp [scan_aux, hc]
        · by_cases hw : is_ascii_whitespace c
          · unfold skip_ws_aux
            simp only [Option.map_none', hp, if_neg hc, hw, Bool.not_true,
              Bool.false_eq_true, if_false]
            rw [← hadv]
            have hmap : (none : Option Loc)
                = (none : Option Nat).map (fun j => (advance_n rh0 j).cur_char_loc) := rfl
            rw [hmap, ih rh0 (n + 1) none loc hlen, hcons]
            simp [scan_aux, hc, hw]
          · unfold skip_ws_aux
            have hnw : (!is_ascii_whitespace c) = true := by
              simp only [Bool.not_eq_true']
              exact Bool.eq_false_iff.mpr hw
            simp only [Option.map_none', hp, if_neg hc, hnw, if_true]
            rw [hcons]
            simp [scan_aux, hc, hw]
      | some j0 =>
        by_cases hc : c = '#'
        · unfold skip_ws_aux
          simp only [Option.map_some', hp, hc, if_true]
          rw [← hadv]
          have hmap : (none : Option Loc)
              = (none : Option Nat).map (fun j => (advance_n rh0 j).cur_char_loc) := rfl
          rw [hmap, ih rh0 (n + 1) none loc hlen, hcons]
          simp [scan_aux, hc]
        · unfold skip_ws_aux
          simp only [Option.map_some', hp, if_neg hc]
          rw [← hadv]
          have hmap : (some ((advance_n rh0 j0).cur_char_loc))
              = (some j0).map (fun j => (advance_n rh0 j).cur_char_loc) := rfl
          rw [hmap, ih rh0 (n + 1) (some j0) loc hlen, hcons]
          simp [scan_aux, hc]

theorem scan_aux_hash : ∀ (l : List Char) (i : Nat) (op : Option Nat) (j : Nat),
    scan_aux l i op = some j → op = some j ∨ (i ≤ j ∧ l[j - i]? = some '#') := by
  intro l
  induction l with
  | nil =>
    intro i op j h
    left
    exact h
  | cons c cs ih =>
    intro i op j h
    cases op with
    | none =>
      by_cases hc : c = '#'
      · unfold scan_aux at h
        rw [if_pos hc] at h
        rcases ih (i + 1) (some i) j h with h1 | h2
        · obtain rfl : i = j := Option.some.inj h1
          right
          refine ⟨Nat.le_refl _, ?_⟩
          have h0 : i - i = 0 := by omega
          rw [h0, List.getElem?_cons_zero, hc]
        · right
          refine ⟨by omega, ?_⟩
          have hj : j - i = (j - (i + 1)) + 1 := by omega
          rw [hj, List.getElem?_cons_succ]
          exact h2.2
      · unfold scan_aux at h
        rw [if_neg hc] at h
        by_cases hw : is_ascii_whitespace c
        · rw [if_pos hw] at h
          rcases ih (i + 1) none j h with h1 | h2
          · exact absurd h1 (by simp)
          · right
            refine ⟨by omega, ?_⟩
            have hj : j - i = (j - (i + 1)) + 1 := by omega
            rw [hj, List.getElem?_cons_succ]
            exact h2.2
        · rw [if_neg hw] at h
          exact absurd h (by simp)
    | some j0 =>
      by_cases hc : c = '#'
      · unfold scan_aux at h
        rw [if_pos hc] at h
        rcases ih (i + 1) none j h with h1 | h2
        · exact absurd h1 (by simp)
        · right
          refine ⟨by omega, ?_⟩
          have hj : j - i = (j - (i + 1)) + 1 := by omega
          rw [hj, List.getElem?_cons_succ]
          exact h2.2
      · unfold scan_aux at h
        rw [if_neg hc] at h
        rcases ih (i + 1) (some j0) j h with h1 | h2
        · left
          exact h1
        · right
          refine ⟨by omega, ?_⟩
          have hj : j - i = (j - (i + 1)) + 1 := by omega
          rw [hj, List.getElem?_cons_succ]
          exact h2.2

theorem line_offsets_aux_length : ∀ (s : List Char) (i : Nat),
    (line_offsets_aux s i).length = s.count '\n' := by
  intro s
  induction s with
  | nil => intro i; simp [line_offsets_aux]
  | cons c cs ih =>
    intro i
    by_cases hc : c = '\n'
    · simp [line_offsets_aux, hc, ih, List.count_cons]
    · simp [line_offsets_aux, hc, ih, List.count_cons]

theorem stmts_to_machine_all_invalid : ∀ (l : List (Node Stmt)),
    (∀ nd ∈ l, nd.content = Stmt.Invalid) →
    stmts_to_machine l = some (l.map fun _ => program.Stmt.Invalid) := by
  intro l
  induction l with
  | nil => intro _; simp [stmts_to_machine]
  | cons nd rest ih =>
    intro h
    have h1 : nd.content = Stmt.Invalid := h nd (by simp)
    have h2 := ih fun x hx => h x (by simp [hx])
    obtain ⟨s, lo, cm, wa⟩ := nd
    have h3 : s = Stmt.Invalid := h1
    subst h3
    simp [stmts_to_machine, h2, Stmt.to_machine_stmt]

/-! ## Claim theorems -/

/-- Claim C1: the claim says `is_invalid()` is true iff the node is the
`Invalid` variant or some owned child is invalid, including a
`BlockLiteral` containing an invalid statement.  The code evaluated at
`Expr::BlockLiteral([Stmt::Invalid])` returns `false` although its owned
child statement `Stmt::Invalid` reports `is_invalid() == true`, because
`Expr::is_invalid` ignores a block literal's statements. -/
theorem c1_block_literal_breaks_invalid_propagation :
    Expr.is_invalid block_with_invalid_stmt = false ∧
    Stmt.is_invalid Stmt.Invalid = true := by
  constructor
  · simp [block_with_invalid_stmt, Expr.is_invalid]
  · simp [Stmt.is_invalid]

/-- Claim C2: the claim says lowering is total and panic-free on every
node with `is_invalid() == false`.  The code evaluated at
`Expr::BlockLiteral([Print(Expr::Invalid)])` has `is_invalid() == false`
yet its lowering reaches the `unreachable!()` branch (embedded as
`none`). -/
theorem c2_lowering_panics_on_is_invalid_false_input :
    Expr.is_invalid block_with_invalid_print = false ∧
    Expr.to_machine_expr block_with_invalid_print = none := by
  constructor
  · simp [block_with_invalid_print, Expr.is_invalid]
  · simp [block_with_invalid_print, Node.from, Expr.to_machine_expr, stmts_to_machine,
      Stmt.to_machine_stmt]

/-- Claim C9: `Node::map` applies the function to the content and leaves
the location, the three comment buckets and the warnings unchanged. -/
theorem c9_node_map_preserves_frame {α β : Type} (n : Node α) (f : α → β) :
    (n.map f).content = f n.content ∧ (n.map f).loc = n.loc ∧
    (n.map f).comments = n.comments ∧ (n.map f).warnings = n.warnings :=
  ⟨rfl, rfl, rfl, rfl⟩

/-- Claim C10: `Stmt::Invalid` lowers totally and non-fatally to the IR
`Invalid` statement, in contrast to `Expr::Invalid` and `Chop::Invalid`
(`unreachable!()`) and an `Invalid` assignment target (`todo!()`), all
embedded as `none`; hence a program whose statements are all `Invalid`
lowers without error to a block of IR `Invalid` statements. -/
theorem c10_invalid_stmt_lowers_nonfatally :
    (∀ p : Program, (∀ nd ∈ p.stmts, nd.content = Stmt.Invalid) →
      p.to_machine_block
        = some (program.Block.mk (p.stmts.map fun _ => program.Stmt.Invalid))) ∧
    Stmt.to_machine_stmt Stmt.Invalid = some program.Stmt.Invalid ∧
    Expr.to_machine_expr Expr.Invalid = none ∧
    Chop.to_machine_chop Chop.Invalid = none ∧
    (∀ (t : Node TargetExpr) (e : Node Expr), t.content = TargetExpr.Invalid →
      Stmt.to_machine_stmt (Stmt.Assign t e) = none) := by
  refine ⟨?_, by simp [Stmt.to_machine_stmt], by simp [Expr.to_machine_expr],
    by simp [Chop.to_machine_chop], ?_⟩
  · intro p h
    unfold Program.to_machine_block
    rw [stmts_to_machine_all_invalid p.stmts h]
    rfl
  · intro t e ht
    obtain ⟨tc, tl, tcm, tw⟩ := t
    obtain ⟨ec, el, ecm, ew⟩ := e
    have h3 : tc = TargetExpr.Invalid := ht
    subst h3
    simp [Stmt.to_machine_stmt]

/-- Witness for C10 at a concrete one-statement program. -/
theorem c10_witness :
    Program.to_machine_block { stmts := [Node.from Stmt.Invalid dummy_loc] }
      = some (program.Block.mk [program.Stmt.Invalid]) := by
  have h := c10_invalid_stmt_lowers_nonfatally.1
    { stmts := [Node.from Stmt.Invalid dummy_loc] }
    (by intro nd hnd; simp at hnd; subst hnd; rfl)
  simpa using h

/-- Counterexample for claim C3: on `"# comment\nx"` the tokenizer does
not return `Word("x")` — a `'#'` comment is closed only by another `'#'`,
not by a newline, so the read fails with `EofInComment` at the opening
`'#'` (line 1, byte 0). -/
theorem c3_counterexample_newline_does_not_close_comment :
    (ReadingHead.from_scu c3_scu).read_cur_tok
        = some (Except.error (ParsingError.EofInComment
            { scu := c3_scu, line_start := 1, raw_index_start := 0, raw_length := 1 })) ∧
    ¬ ∃ loc, (ReadingHead.from_scu c3_scu).read_cur_tok
        = some (Except.ok (Tok.Word "x".data, loc)) := by
  have h0 : (ReadingHead.from_scu c3_scu).read_cur_tok
      = some (Except.error (ParsingError.EofInComment
          { scu := c3_scu, line_start := 1, raw_index_start := 0, raw_length := 1 })) := by
    decide
  refine ⟨h0, ?_⟩
  rintro ⟨loc, hl⟩
  rw [h0] at hl
  simp at hl

/-- Claim C3 as amended: on `"# comment #\nx"`, where the comment is
closed by a second `'#'`, the comment and the newline are skipped and
`read_cur_tok` returns `Word("x")` whose location has `line_start = 2`
(and starts at byte 12 with length 1). -/
theorem c3_amended_hash_closes_comment :
    (ReadingHead.from_scu c3_amended_scu).read_cur_tok
        = some (Except.ok (Tok.Word "x".data,
            { scu := c3_amended_scu, line_start := 2, raw_index_start := 12,
              raw_length := 1 })) := by
  decide

/-- Claim C4: the claim says every single-character `BinOp` token's
location starts at that character with length 1.  The code evaluated at
`"+"` (content `"+\n"`): the `'+'` sits at byte 0, but the returned
location has `raw_index_start = 1` — the code advances past the token
before taking `cur_char_loc`, so the location describes the character
after the token. -/
theorem c4_single_char_token_location_off_by_one :
    (ReadingHead.from_scu c4_scu).read_cur_tok
        = some (Except.ok (Tok.BinOp "+".data,
            { scu := c4_scu, line_start := 1, raw_index_start := 1, raw_length := 1 })) ∧
    c4_scu.content[0]? = some '+' := by
  constructor
  · decide
  · decide

/-- Claim C5: the claim says for every source text, including the empty
string, the content ends with a trailing newline and `line_offsets` has
length `1 +` the number of newlines in the content.  The code evaluated
at `s = ""` produces empty content with no trailing newline (the final
`line_offsets` entry `0` equals the empty content's length, so the
normalization branch is skipped); the length property does hold for
every source text. -/
theorem c5_empty_source_gets_no_trailing_newline :
    (SourceCodeUnit.from_str [] "e".data).content = [] ∧
    (∀ s nm : List Char, (SourceCodeUnit.from_str s nm).line_offsets.length
        = 1 + (SourceCodeUnit.from_str s nm).content.count '\n') := by
  constructor
  · decide
  · intro s nm
    by_cases hcond : (0 :: line_offsets_aux s 0).getLastD 0 = utf8_len s
    · have heq : SourceCodeUnit.from_str s nm
          = { name := nm, content := s, line_offsets := 0 :: line_offsets_aux s 0 } := by
        unfold SourceCodeUnit.from_str
        rw [if_neg fun hne => hne hcond]
      rw [heq]
      simp [line_offsets_aux_length]
      omega
    · have heq : SourceCodeUnit.from_str s nm
          = { name := nm, content := s ++ ['\n'],
              line_offsets := (0 :: line_offsets_aux s 0) ++ [utf8_len s + 1] } := by
        unfold SourceCodeUnit.from_str
        rw [if_pos hcond]
      rw [heq]
      simp [List.count_append, line_offsets_aux_length, List.count_cons]
      omega

/-- Claim C7: lowering of each valid expression kind — `VariableName(x)`
yields `Var{x}`; `IntegerLiteral(d)` with an in-range parse yields
`Const{Integer(parse(d))}`; `StringLiteral(t)` yields `Const{String(t)}`
with no further decoding; `BlockLiteral(stmts)` yields
`Const{Block{lowered stmts}}`; `Chain{init, chops}` yields `Chain` of the
lowered init and the lowered chops; and each `Chop` tag maps 1:1 while
lowering its one operand expression. -/
theorem c7_lowering_per_kind :
    (∀ x : List Char,
      Expr.to_machine_expr (Expr.VariableName x) = some (program.Expr.Var x)) ∧
    (∀ (d : List Char) (v : Int), parse_integer d = some v →
      Expr.to_machine_expr (Expr.IntegerLiteral d)
        = some (program.Expr.Const (Obj.Integer v))) ∧
    (∀ t : List Char,
      Expr.to_machine_expr (Expr.StringLiteral t)
        = some (program.Expr.Const (Obj.String t))) ∧
    (∀ (stmts : List (Node Stmt)) (ms : List program.Stmt),
      stmts_to_machine stmts = some ms →
      Expr.to_machine_expr (Expr.BlockLiteral stmts)
        = some (program.Expr.Const (Obj.Block (program.Block.mk ms)))) ∧
    (∀ (init : Node Expr) (chops : List (Node Chop)) (pinit : program.Expr)
        (pchops : List program.Chop),
      Expr.to_machine_expr init.content = some pinit →
      chops_to_machine chops = some pchops →
      Expr.to_machine_expr (Expr.Chain init chops)
        = some (program.Expr.Chain pinit pchops)) ∧
    (∀ e : Node Expr,
      Chop.to_machine_chop (Chop.Plus e)
          = (Expr.to_machine_expr e.content).map program.Chop.Plus ∧
      Chop.to_machine_chop (Chop.Minus e)
          = (Expr.to_machine_expr e.content).map program.Chop.Minus ∧
      Chop.to_machine_chop (Chop.Star e)
          = (Expr.to_machine_expr e.content).map program.Chop.Star ∧
      Chop.to_machine_chop (Chop.Slash e)
          = (Expr.to_machine_expr e.content).map program.Chop.Slash ∧
      Chop.to_machine_chop (Chop.ToRight e)
          = (Expr.to_machine_expr e.content).map program.Chop.ToRight) := by
  refine ⟨?_, ?_, ?_, ?_, ?_, ?_⟩
  · intro x
    simp [Expr.to_machine_expr]
  · intro d v h
    simp [Expr.to_machine_expr, h]
  · intro t
    simp [Expr.to_machine_expr]
  · intro stmts ms h
    simp [Expr.to_machine_expr, h]
  · intro init chops pinit pchops h1 h2
    obtain ⟨ic, il, icm, iw⟩ := init
    have h1' : Expr.to_machine_expr ic = some pinit := h1
    simp [Expr.to_machine_expr, h1', h2]
  · intro e
    obtain ⟨ec, el, ecm, ew⟩ := e
    refine ⟨?_, ?_, ?_, ?_, ?_⟩ <;> simp [Chop.to_machine_chop]

/-- Witness for C7: `"42"` parses to 42 and lowers to
`Const{Integer(42)}`; `Chain{Var("x"), [Plus(IntegerLiteral("1"))]}`
lowers to `Chain{Var{x}, [Plus(Const{Integer(1)})]}`. -/
theorem c7_witness :
    Expr.to_machine_expr (Expr.IntegerLiteral "42".data)
        = some (program.Expr.Const (Obj.Integer 42)) ∧
    Expr.to_machine_expr (Expr.Chain (Node.from (Expr.VariableName "x".data) dummy_loc)
        [Node.from (Chop.Plus (Node.from (Expr.IntegerLiteral "1".data) dummy_loc)) dummy_loc])
      = some (program.Expr.Chain (program.Expr.Var "x".data)
          [program.Chop.Plus (program.Expr.Const (Obj.Integer 1))]) := by
  constructor
  · exact c7_lowering_per_kind.2.1 "42".data 42 (by decide)
  · refine c7_lowering_per_kind.2.2.2.2.1 _ _ _ _ ?_ ?_
    · simp [Node.from, Expr.to_machine_expr]
    · simp [chops_to_machine, Node.from, Chop.to_machine_chop, Expr.to_machine_expr,
        show parse_integer "1".data = some 1 from by decide]

/-- Claim C8: `read_cur_tok` terminates on every source unit and every
reading-head state: its fuel-bounded loops (whitespace/comment skipping
and word/integer runs) always complete within `content.length + 1`
steps, because every non-exiting iteration consumes one character, so the
result is always `some` (a token-location pair or a parsing error). -/
theorem c8_read_cur_tok_terminates (rh : ReadingHead) :
    rh.read_cur_tok.isSome = true := by
  unfold ReadingHead.read_cur_tok
  cases hsw : rh.skip_ws with
  | none =>
    have h := skip_ws_isSome rh
    rw [hsw] at h
    simp at h
  | some r =>
    cases r with
    | error e => simp
    | ok rh1 =>
      cases hp : rh1.peek_cur_char with
      | none => simp [hp]
      | some c =>
        by_cases h1 : is_ascii_alphabetic c
        · simp only [hp, h1, if_true]
          unfold ReadingHead.read_cur_word
          have h := read_word_aux_isSome (rh1.scu.content.length + 1) rh1
            (Nat.lt_succ_of_le (rem_length_le rh1))
          simpa using h
        · by_cases h2 : is_ascii_digit c
          · simp only [hp, h1, h2, Bool.false_eq_true, if_false, if_true]
            unfold ReadingHead.read_cur_integer
            have h := read_integer_aux_isSome (rh1.scu.content.length + 1) rh1
              (Nat.lt_succ_of_le (rem_length_le rh1))
            simpa using h
          · simp only [hp, h1, h2, Bool.false_eq_true, if_false]
            split_ifs <;> simp

/-- Claim C6: `read_cur_tok` fails with `EofInComment` exactly when end
of input is reached while a `'#'`-opened comment is still open (the
spec-side scan `open_comment_at_eof` of the unconsumed characters finds
the opening `'#'` at index `j`), no token is produced in that case, and
the error's location is that opening `'#'` character's location: its
`line_start` is the line where the comment opened, its byte start is the
`'#'`'s byte offset, and its length is 1. -/
theorem c6_eof_in_comment_iff_open_comment (rh : ReadingHead) (loc : Loc) :
    rh.read_cur_tok = some (Except.error (ParsingError.EofInComment loc)) ↔
    ∃ j, open_comment_at_eof rh.rem = some j ∧
      rh.rem[j]? = some '#' ∧
      loc = (advance_n rh j).cur_char_loc ∧
      loc.scu = rh.scu ∧
      loc.line_start = rh.line + (rh.rem.take j).count '\n' ∧
      loc.raw_index_start = rh.raw_index + utf8_len (rh.rem.take j) ∧
      loc.raw_length = 1 := by
  have h0 : advance_n rh 0 = rh := rfl
  have hbase := skip_ws_aux_error_iff (rh.scu.content.length + 1) rh 0 none loc
    (by rw [h0]; exact Nat.lt_succ_of_le (rem_length_le rh))
  rw [h0] at hbase
  simp only [Option.map_none'] at hbase
  have hskip : rh.skip_ws = skip_ws_aux (rh.scu.content.length + 1) none rh := rfl
  have hread : (rh.read_cur_tok = some (Except.error (ParsingError.EofInComment loc))) ↔
      (rh.skip_ws = some (Except.error (ParsingError.EofInComment loc))) := by
    unfold ReadingHead.read_cur_tok
    cases hsw : rh.skip_ws with
    | none =>
      have h := skip_ws_isSome rh
      rw [hsw] at h
      simp at h
    | some r =>
      cases r with
      | error e => simp
      | ok rh1 =>
        constructor
        · intro hcontra
          exfalso
          cases hp : rh1.peek_cur_char with
          | none =>
            simp only [hp] at hcontra
            simp at hcontra
          | some c =>
            simp only [hp] at hcontra
            by_cases h1 : is_ascii_alphabetic c
            · simp only [h1, if_true] at hcontra
              rcases Option.map_eq_some'.mp hcontra with ⟨p, _, hpe⟩
              simp at hpe
            · by_cases h2 : is_ascii_digit c
              · simp only [h1, h2, Bool.false_eq_true, if_false, if_true] at hcontra
                rcases Option.map_eq_some'.mp hcontra with ⟨p, _, hpe⟩
                simp at hpe
              · simp only [h1, h2, Bool.false_eq_true, if_false] at hcontra
                split_ifs at hcontra <;> simp at hcontra
        · intro hcontra
          exact absurd hcontra (by simp)
  rw [hread, hskip, hbase]
  unfold open_comment_at_eof
  constructor
  · rintro ⟨j, hscan, hloc⟩
    have hhash : rh.rem[j]? = some '#' := by
      rcases scan_aux_hash rh.rem 0 none j hscan with hbad | hgood
      · exact absurd hbad (by simp)
      · simpa using hgood.2
    refine ⟨j, hscan, hhash, hloc, ?_, ?_, ?_, ?_⟩
    · rw [hloc]
      simp [ReadingHead.cur_char_loc, advance_n_scu]
    · rw [hloc]
      simp [ReadingHead.cur_char_loc, advance_n_line]
    · rw [hloc]
      simp [ReadingHead.cur_char_loc, advance_n_raw_index]
    · rw [hloc]
      have hpk : (advance_n rh j).peek_cur_char = some '#' := by
        unfold ReadingHead.peek_cur_char
        rw [advance_n_rem, List.head?_drop]
        exact hhash
      simp only [ReadingHead.cur_char_loc, hpk]
      decide
  · rintro ⟨j, hscan, _, hloc, _, _, _, _⟩
    exact ⟨j, hscan, hloc⟩

/-- Witness for C6 at the concrete source `"#a"`: the comment opened at
byte 0 is still open at end of input, and `read_cur_tok` fails with
`EofInComment` at exactly that location. -/
theorem c6_witness :
    ∃ j, open_comment_at_eof (ReadingHead.from_scu c6_scu).rem = some j ∧
      (ReadingHead.from_scu c6_scu).rem[j]? = some '#' ∧
      ({ scu := c6_scu, line_start := 1, raw_index_start := 0, raw_length := 1 } : Loc)
          = (advance_n (ReadingHead.from_scu c6_scu) j).cur_char_loc ∧
      ({ scu := c6_scu, line_start := 1, raw_index_start := 0, raw_length := 1 } : Loc).scu
          = (ReadingHead.from_scu c6_scu).scu ∧
      ({ scu := c6_scu, line_start := 1, raw_index_start := 0, raw_length := 1 } : Loc).line_start
          = (ReadingHead.from_scu c6_scu).line
            + ((ReadingHead.from_scu c6_scu).rem.take j).count '\n' ∧
      ({ scu := c6_scu, line_start := 1, raw_index_start := 0, raw_length := 1 } : Loc).raw_index_start
          = (ReadingHead.from_scu c6_scu).raw_index
            + utf8_len ((ReadingHead.from_scu c6_scu).rem.take j) ∧
      ({ scu := c6_scu, line_start := 1, raw_index_start := 0, raw_length := 1 } : Loc).raw_length
          = 1 :=
  (c6_eof_in_comment_iff_open_comment (ReadingHead.from_scu c6_scu)
    { scu := c6_scu, line_start := 1, raw_index_start := 0, raw_length := 1 }).mp
    (by decide)
